import Mathlib

/-!
Verification of the goph-keeper server core against its specification.

The Go sources are shallowly embedded:
* `internal/errs` sentinels become the `Sentinel` / `GoError` types
  (`fmt.Errorf("...: %w", sentinel)` keeps the sentinel visible to
  `errors.Is`, which `GoError.wrapped` models);
* the `items` and `users` tables become lists of rows; SQL statements
  become the corresponding pure list operations; a transaction is a
  function returning the committed store (commit) or the original store
  (rollback) together with the Go return values;
* 128-bit identifiers (`uuid.UUID`) are abstracted as `Nat`
  (`uuid.Nil` is `0`); byte strings (`[]byte`) as `List Nat`;
  Go `int64` values as `Int`; timestamps as `Int`;
* `updated_at` columns are filled in by the database (`now()` defaults
  and the update trigger); they carry no program logic and are left out
  of the embedded rows.
-/

/-- Byte strings (`[]byte`). Entries are unbounded naturals; where the Go
code depends on byte bounds the theorems say so explicitly. -/
abbrev Bytes := List Nat

/-- Sentinel kinds of `internal/errs` (file `src/unnamed/part_007`). -/
inductive Sentinel where
  | notFound
  | versionConflict
  | unauthorized
  | rateLimited
  | alreadyExists
  deriving DecidableEq, Repr

/-- A Go `error` value as the repository uses it: either a sentinel from
`internal/errs` (possibly wrapped by `fmt.Errorf` with a context message,
which `errors.Is` still matches), an opaque error, or `context.Canceled`. -/
inductive GoError where
  | wrapped (s : Sentinel) (msg : String)
  | plain (msg : String)
  | canceled
  deriving DecidableEq, Repr

/-- `errors.Is(err, sentinel)` for the embedded error values. -/
def errorsIs : GoError → Sentinel → Prop
  | .wrapped s _, t => s = t
  | .plain _, _ => False
  | .canceled, _ => False

instance (e : GoError) (s : Sentinel) : Decidable (errorsIs e s) := by
  cases e <;> simp only [errorsIs] <;> infer_instance

instance {ε α : Type} [DecidableEq ε] [DecidableEq α] : DecidableEq (Except ε α) := fun a b =>
  match a, b with
  | .ok x, .ok y =>
    if h : x = y then .isTrue (by rw [h]) else .isFalse (by intro hc; cases hc; exact h rfl)
  | .ok _, .error _ => .isFalse (by intro hc; cases hc)
  | .error _, .ok _ => .isFalse (by intro hc; cases hc)
  | .error x, .error y =>
    if h : x = y then .isTrue (by rw [h]) else .isFalse (by intro hc; cases hc; exact h rfl)

/-- `errs.ErrNotFound`. -/
def errNotFound : GoError := .wrapped .notFound "not found"

/-- `errs.ErrVersionConflict`. -/
def errVersionConflict : GoError := .wrapped .versionConflict "version conflict"

/-- `errs.ErrUnauthorized`. -/
def errUnauthorized : GoError := .wrapped .unauthorized "unauthorized"

/-- `errs.ErrRateLimited`. -/
def errRateLimited : GoError := .wrapped .rateLimited "rate limited"

/-- `errs.ErrAlreadyExists`. -/
def errAlreadyExists : GoError := .wrapped .alreadyExists "already exists"

/-! ## Item store (`internal/repository/postgres/item_repo.go`) -/

/-- One row of the `items` table (`internal/model.Item` without the
database-maintained `updated_at`). -/
structure ItemRow where
  id : Nat
  userId : Nat
  blobEnc : Bytes
  ver : Int
  deleted : Bool
  deriving DecidableEq, Repr

/-- The `items` table. -/
abbrev ItemStore := List ItemRow

/-- `model.UpsertItem`: a client change intent. -/
structure UpsertItem where
  id : Nat
  baseVer : Int
  blobEnc : Bytes
  deriving DecidableEq, Repr

/-- `model.ItemVersion` as `UpsertBatch` builds it (Go leaves `UpdatedAt`
at its zero value there). -/
structure ItemVersion where
  id : Nat
  newVer : Int
  deriving DecidableEq, Repr

/-- `SELECT ver FROM items WHERE id=$1 AND user_id=$2 FOR UPDATE`:
the row matched by the primary key, if any. -/
def findItem (st : ItemStore) (id userId : Nat) : Option ItemRow :=
  st.find? fun r => r.id == id && r.userId == userId

/-- `UPDATE items SET blob_enc=$3, ver=$4, deleted=false WHERE id=$1 AND user_id=$2`. -/
def updateItem (st : ItemStore) (id userId : Nat) (blob : Bytes) (newVer : Int) : ItemStore :=
  st.map fun r =>
    if r.id == id && r.userId == userId then
      { r with blobEnc := blob, ver := newVer, deleted := false }
    else r

/-- `INSERT INTO items (id, user_id, blob_enc, ver, deleted) VALUES ($1,$2,$3,$4,false)`. -/
def insertItem (st : ItemStore) (id userId : Nat) (blob : Bytes) (ver : Int) : ItemStore :=
  st ++ [{ id := id, userId := userId, blobEnc := blob, ver := ver, deleted := false }]

/-- The version-conflict error `fmt.Errorf("item[%d]: %w", i, errs.ErrVersionConflict)`
raised inside `UpsertBatch`. -/
def conflictAt (i : Nat) : GoError :=
  .wrapped .versionConflict ("item[" ++ toString i ++ "]: version conflict")

/-- The `for i, up := range ups` loop body of `UpsertBatch`, acting on the
transaction-local store. `i` is the loop index, `acc` the `results` slice
accumulated so far. -/
def upsertLoop (userId : Nat) :
    ItemStore → Nat → List ItemVersion → List UpsertItem →
    Except GoError (ItemStore × List ItemVersion)
  | st, _, acc, [] => .ok (st, acc)
  | st, i, acc, up :: rest =>
    match findItem st up.id userId with
    | some r =>
      if up.baseVer ≠ r.ver then
        .error (conflictAt i)
      else
        upsertLoop userId (updateItem st up.id userId up.blobEnc (r.ver + 1)) (i + 1)
          (acc ++ [{ id := up.id, newVer := r.ver + 1 }]) rest
    | none =>
      if up.baseVer ≠ 0 then
        .error (conflictAt i)
      else
        upsertLoop userId (insertItem st up.id userId up.blobEnc 1) (i + 1)
          (acc ++ [{ id := up.id, newVer := 1 }]) rest

/-- `ItemRepo.UpsertBatch`: runs the loop inside a transaction. The first
component is the committed state of the `items` table: the loop result on
commit, the original table on rollback (the deferred
`tx.Rollback` when `err != nil`). -/
def UpsertBatch (st : ItemStore) (userId : Nat) (ups : List UpsertItem) :
    ItemStore × Except GoError (List ItemVersion) :=
  match upsertLoop userId st 0 [] ups with
  | .ok (stf, results) => (stf, .ok results)
  | .error e => (st, .error e)

/-! ## GetChangesSince and its wire conversion
(`item_repo.go` and `internal/convert`, file `src/unnamed/part_008`) -/

/-- `model.Change` as `GetChangesSince` builds it: `BlobEnc` stays `nil`
(`none`) for deleted rows and is set to the scanned blob otherwise. -/
structure Change where
  id : Nat
  ver : Int
  deleted : Bool
  blobEnc : Option Bytes
  deriving DecidableEq, Repr

/-- The row-scan body of `GetChangesSince`. -/
def changeOfRow (r : ItemRow) : Change :=
  { id := r.id
    ver := r.ver
    deleted := r.deleted
    blobEnc := if r.deleted then none else some r.blobEnc }

/-- Ordering used by the SQL `ORDER BY ver ASC`. -/
def verLE (a b : ItemRow) : Prop := a.ver ≤ b.ver

instance : DecidableRel verLE := fun a b => inferInstanceAs (Decidable (a.ver ≤ b.ver))

instance : IsTotal ItemRow verLE := ⟨fun a b => Int.le_total a.ver b.ver⟩

instance : IsTrans ItemRow verLE := ⟨fun _ _ _ h1 h2 => Int.le_trans h1 h2⟩

/-- `ItemRepo.GetChangesSince`:
`SELECT id, ver, deleted, updated_at, blob_enc FROM items
WHERE user_id=$1 AND ver>$2 ORDER BY ver ASC`, scanned row by row into
`model.Change` values. -/
def GetChangesSince (st : ItemStore) (userId : Nat) (sinceVer : Int) : List Change :=
  (List.insertionSort verLE
    (st.filter fun r => r.userId == userId && sinceVer < r.ver)).map changeOfRow

/-- `pb.Change` (only the fields the claims are about; `id` keeps the
abstract identifier rather than its `uuid.String()` rendering). -/
structure ProtoChange where
  id : Nat
  ver : Int
  deleted : Bool
  blobEnc : Option Bytes
  deriving DecidableEq, Repr

/-- `convert.ToProtoChange`: the wire blob is left unset (`nil`) when the
change is deleted, and is `ToProtoEncryptedBlob(c.BlobEnc)` otherwise
(`nil` maps to `nil`). -/
def ToProtoChange (c : Change) : ProtoChange :=
  { id := c.id
    ver := c.ver
    deleted := c.deleted
    blobEnc := if c.deleted then none else c.blobEnc }

/-! ## User store (`internal/repository/postgres/user_repo.go`) -/

/-- One row of the `users` table (`model.User` without the
database-maintained `created_at`). -/
structure UserRow where
  id : Nat
  username : String
  pwdHash : Bytes
  saltAuth : Bytes
  kekSalt : Bytes
  wrappedDEK : Bytes
  deriving DecidableEq, Repr

/-- The `users` table. -/
abbrev UserStore := List UserRow

/-- Outcome of the single-row `INSERT` as the backend reports it:
success, a unique-constraint violation (`pgconn.PgError` code 23505 on
the unique `username` index), or some other backend error. -/
inductive InsertOutcome where
  | ok
  | uniqueViolation (msg : String)
  | backend (e : GoError)
  deriving DecidableEq, Repr

/-- Whether inserting `u` hits the unique `username` constraint. -/
def usernameTaken (st : UserStore) (u : UserRow) : Bool :=
  st.any fun v => v.username == u.username

/-- `UserRepo.Create`: executes the `INSERT`; `isUniqueViolation`
(PgError code 23505) is mapped to `errs.ErrVersionConflict` — the code
comment reads `// or define ErrAlreadyExists if нужно` — and any other
backend error propagates unchanged. `fault` injects a backend failure of
the `Exec` call; with `fault = none` the outcome is determined by the
unique-username constraint. -/
def userCreate (st : UserStore) (u : UserRow) (fault : Option GoError) :
    UserStore × Except GoError Unit :=
  let outcome : InsertOutcome :=
    match fault with
    | some e => .backend e
    | none => if usernameTaken st u then .uniqueViolation "23505" else .ok
  match outcome with
  | .ok => (st ++ [u], .ok ())
  | .uniqueViolation _ => (st, .error errVersionConflict)
  | .backend e => (st, .error e)

/-- A failure of the row scan in `GetByID` / `GetByUsername` other than
"no rows": either the context was cancelled or some other backend error. -/
inductive QueryFault where
  | canceled
  | backend (msg : String)
  deriving DecidableEq, Repr

/-- `UserRepo.GetByID`: on any scan error, `context.Canceled` is returned
raw and everything else (including `pgx.ErrNoRows` and backend errors)
becomes `errs.ErrNotFound`. -/
def userGetByID (st : UserStore) (id : Nat) (fault : Option QueryFault) :
    Except GoError UserRow :=
  match fault with
  | some .canceled => .error .canceled
  | some (.backend _) => .error errNotFound
  | none =>
    match st.find? fun u => u.id == id with
    | some u => .ok u
    | none => .error errNotFound

/-- `UserRepo.GetByUsername`: same error policy as `GetByID`. -/
def userGetByUsername (st : UserStore) (username : String) (fault : Option QueryFault) :
    Except GoError UserRow :=
  match fault with
  | some .canceled => .error .canceled
  | some (.backend _) => .error errNotFound
  | none =>
    match st.find? fun u => u.username == username with
    | some u => .ok u
    | none => .error errNotFound

/-- The `WHERE` clause of `SetWrappedDEKIfEmpty`:
`id = $1 AND octet_length(wrapped_dek) = 0`. -/
def dekRowMatches (id : Nat) (u : UserRow) : Bool :=
  u.id == id && u.wrappedDEK.length == 0

/-- `UserRepo.SetWrappedDEKIfEmpty`: the conditional
`UPDATE users SET wrapped_dek = $2 WHERE id = $1 AND octet_length(wrapped_dek) = 0`;
when `RowsAffected() == 0` the call fails with `errs.ErrVersionConflict`. -/
def SetWrappedDEKIfEmpty (st : UserStore) (id : Nat) (wrapped : Bytes) :
    UserStore × Except GoError Unit :=
  let affected := st.countP fun u => dekRowMatches id u
  let stf := st.map fun u => if dekRowMatches id u then { u with wrappedDEK := wrapped } else u
  if affected == 0 then (stf, .error errVersionConflict) else (stf, .ok ())

/-- `AuthServiceImpl.SetWrappedDEK` (`internal/service/auth.go`): rejects a
zero user id or empty payload with a validation error, then delegates to
`SetWrappedDEKIfEmpty`. -/
def serviceSetWrappedDEK (st : UserStore) (userId : Nat) (wrapped : Bytes) :
    UserStore × Except GoError Unit :=
  if userId = 0 ∨ wrapped = [] then
    (st, .error (.plain "validation: userID/wrapped_dek"))
  else
    SetWrappedDEKIfEmpty st userId wrapped

/-! ## Login rate limiter (`internal/limiter`, PG backend;
file `src/internal/convert/proto_test.go`, second section) -/

/-- One row of the `auth_limiter` table for a fixed `(username, ip_hash)`
key. Timestamps are integers; the `'epoch'` sentinel is `0`. -/
structure LimRow where
  failCount : Int
  blockedUntil : Int
  updatedAt : Int
  deriving DecidableEq, Repr

/-- The `PG` limiter configuration (window, maxFails, blockFor). -/
structure LimiterCfg where
  window : Int
  maxFails : Int
  blockFor : Int
  deriving DecidableEq, Repr

/-- `PG.Failure` for one `(username, ip_hash)` key: the upserting
`INSERT ... ON CONFLICT ... DO UPDATE SET fail_count = CASE WHEN
EXCLUDED.updated_at - auth_limiter.updated_at > $3::interval THEN 1 ELSE
auth_limiter.fail_count + 1 END, updated_at = now() RETURNING fail_count`,
followed by the conditional `UPDATE ... SET blocked_until=$3` when the
returned count reaches `maxFails`. Returns the stored row and the Go
results `(blocked_now, retry_after)`. -/
def limiterFailure (cfg : LimiterCfg) (now : Int) (prev : Option LimRow) :
    LimRow × Bool × Int :=
  let fails : Int :=
    match prev with
    | none => 1
    | some r => if now - r.updatedAt > cfg.window then 1 else r.failCount + 1
  let kept : Int :=
    match prev with
    | none => 0
    | some r => r.blockedUntil
  let upserted : LimRow := { failCount := fails, blockedUntil := kept, updatedAt := now }
  if fails ≥ cfg.maxFails then
    ({ upserted with blockedUntil := now + cfg.blockFor }, true, cfg.blockFor)
  else
    (upserted, false, 0)

/-! ## LoginWithIP (`internal/service/auth.go`) -/

/-- Result of `LoginWithIP`, instrumented with the number of Argon2id
password hashes computed on the way (`VerifyPassword` calls
`HashPassword` exactly once). `.ok u` stands for the successful return of
the minted tokens together with the user record. -/
structure LoginOutcome where
  result : Except GoError UserRow
  hashEvals : Nat
  deriving Repr

/-- `AuthServiceImpl.LoginWithIP`, parameterized by the Argon2id hash
function `hash` (external `golang.org/x/crypto/argon2`), the user table,
and the limiter answers: `allowed`/`allowErr` from `Allow`,
`failBlocked`/`failErr` from `Failure`. `VerifyPassword(p, salt, expected)`
is `HashPassword(p, salt) == expected`; the Go condition
`err != nil || !VerifyPassword(...)` short-circuits, so no hash is
computed when the lookup failed. -/
def loginWithIP (hash : Bytes → Bytes → Bytes)
    (st : UserStore) (username : String) (password : Bytes)
    (allowed : Bool) (allowErr : Option GoError)
    (lookupFault : Option QueryFault)
    (failBlocked : Bool) (failErr : Option GoError) : LoginOutcome :=
  match allowErr with
  | some e => { result := .error e, hashEvals := 0 }
  | none =>
    if !allowed then
      { result := .error errRateLimited, hashEvals := 0 }
    else
      match userGetByUsername st username lookupFault with
      | .error _ =>
        if failErr = none ∧ failBlocked then
          { result := .error errRateLimited, hashEvals := 0 }
        else
          { result := .error errUnauthorized, hashEvals := 0 }
      | .ok u =>
        if hash password u.saltAuth = u.pwdHash then
          { result := .ok u, hashEvals := 1 }
        else
          if failErr = none ∧ failBlocked then
            { result := .error errRateLimited, hashEvals := 1 }
          else
            { result := .error errUnauthorized, hashEvals := 1 }

/-! ## Client envelope crypto (`internal/crypto/clientcrypto/crypto.go`)

`EncryptBlob` / `DecryptBlob` are translated from the source; the
XChaCha20-Poly1305 primitive itself lives in the external
`golang.org/x/crypto` module and is modelled as an ideal AEAD: the
ciphertext body carries the plaintext and the 16-cell tag is a perfect
authenticator of `(key, nonce, aad, body)` (confidentiality is not
modelled; authenticity is modelled as exact). The fresh random nonce of
`EncryptBlob` is passed in explicitly. -/

/-- Injective encoding of a byte string into one `Nat`
(`2 ^ head * (2 * rest + 1)`), used to build the ideal tag. -/
def bytesEnc : List Nat → Nat
  | [] => 0
  | a :: l => 2 ^ a * (2 * bytesEnc l + 1)

/-- The ideal 16-cell Poly1305 tag: a perfect MAC over
`(key, nonce, aad, ciphertext body)`. -/
def idealTag (key nonce aad body : Bytes) : Bytes :=
  [bytesEnc key, bytesEnc nonce, bytesEnc aad, bytesEnc body] ++ List.replicate 12 0

/-- Ideal `aead.Seal(nil, nonce, plaintext, aad)`: ciphertext body plus
16 cells of tag (`aead.Overhead() = 16`). -/
def aeadSeal (key nonce pt aad : Bytes) : Bytes :=
  pt ++ idealTag key nonce aad pt

/-- Ideal `aead.Open(nil, nonce, ct, aad)`: splits off the 16-cell tag,
recomputes it, and returns the body only on an exact match. -/
def aeadOpen (key nonce ct aad : Bytes) : Option Bytes :=
  if 16 ≤ ct.length then
    if ct.drop (ct.length - 16) = idealTag key nonce aad (ct.take (ct.length - 16)) then
      some (ct.take (ct.length - 16))
    else none
  else none

/-- `binary.BigEndian.PutUint64`: the eight big-endian bytes of `n`. -/
def beBytes8 (n : Nat) : Bytes :=
  [n / 2 ^ 56 % 256, n / 2 ^ 48 % 256, n / 2 ^ 40 % 256, n / 2 ^ 32 % 256,
   n / 2 ^ 24 % 256, n / 2 ^ 16 % 256, n / 2 ^ 8 % 256, n % 256]

/-- `uint64(ver)` for a Go `int64` value. -/
def toUint64 (ver : Int) : Nat := (ver % (2 ^ 64 : Int)).toNat

/-- The associated data both blob functions build:
`userID || itemID || big-endian 8 bytes of uint64(ver)`. -/
def aadOf (userID itemID : Bytes) (ver : Int) : Bytes :=
  userID ++ itemID ++ beBytes8 (toUint64 ver)

/-- `clientcrypto.EncryptBlob` with the 24-byte random nonce made
explicit: output `nonce || Seal(key, nonce, plaintext, aad)`. -/
def EncryptBlob (key userID itemID : Bytes) (ver : Int) (plaintext nonce : Bytes) : Bytes :=
  nonce ++ aeadSeal key nonce plaintext (aadOf userID itemID ver)

/-- `clientcrypto.DecryptBlob`: rejects blobs shorter than the 24-byte
nonce, splits `nonce || ct`, rebuilds the same AAD and opens. -/
def DecryptBlob (key userID itemID : Bytes) (ver : Int) (blob : Bytes) : Option Bytes :=
  if blob.length < 24 then none
  else aeadOpen key (blob.take 24) (blob.drop 24) (aadOf userID itemID ver)

/-! ## Server construction (`cmd/server/main.go`) -/

/-- The `grpc.ServerOption` values relevant to the transport cap. -/
inductive ServerOption where
  | creds
  | chainUnaryInterceptor (count : Nat)
  | maxRecvMsgSize (bytes : Nat)
  deriving DecidableEq, Repr

/-- The options `main` passes to `grpc.NewServer`
(`cmd/server/main.go` lines 92–98): TLS credentials and the two chained
unary interceptors — no `grpc.MaxRecvMsgSize`. -/
def mainServerOptions : List ServerOption :=
  [.creds, .chainUnaryInterceptor 2]

/-- grpc-go's default receive cap `defaultServerMaxReceiveMessageSize`
(4 MiB), applied when no `MaxRecvMsgSize` option is given. -/
def grpcDefaultMaxRecvBytes : Nat := 4194304

/-- The receive cap a `grpc.NewServer(opts...)` call ends up with: the
last `MaxRecvMsgSize` option, or the 4 MiB default. -/
def effectiveMaxRecv (opts : List ServerOption) : Nat :=
  opts.foldl
    (fun acc o =>
      match o with
      | .maxRecvMsgSize n => n
      | _ => acc)
    grpcDefaultMaxRecvBytes

/-- Whether the configured server accepts an incoming RPC whose decoded
payload is `n` bytes. -/
def serverAcceptsPayload (opts : List ServerOption) (n : Nat) : Bool :=
  n ≤ effectiveMaxRecv opts

/-! ## Theorems -/

/-- Claim C2: `UpsertBatch` is atomic. If any intent fails — with a
version conflict or any other backend error — the deferred `tx.Rollback`
leaves the `items` table exactly as it was, and the result list exists
only when the whole batch commits (in which case it is the loop's result
on the committed table). -/
theorem upsertBatch_atomic (st : ItemStore) (userId : Nat) (ups : List UpsertItem) :
    (∀ e, (UpsertBatch st userId ups).2 = .error e → (UpsertBatch st userId ups).1 = st) ∧
    (∀ results, (UpsertBatch st userId ups).2 = .ok results →
      upsertLoop userId st 0 [] ups = .ok ((UpsertBatch st userId ups).1, results)) := by
  unfold UpsertBatch
  cases h : upsertLoop userId st 0 [] ups with
  | ok p =>
    refine ⟨fun e he => ?_, fun results hr => ?_⟩
    · simp at he
    · simp at hr
      subst hr
      rfl
  | error e =>
    refine ⟨fun e2 _ => rfl, fun results hr => ?_⟩
    simp at hr

/-- Witness for C2: a concrete two-intent batch whose first intent
succeeds and whose second intent hits a version conflict leaves the
concrete store untouched. -/
theorem upsertBatch_atomic_witness :
    (UpsertBatch [{ id := 1, userId := 1, blobEnc := [4], ver := 2, deleted := false }] 1
        [{ id := 1, baseVer := 2, blobEnc := [5] }, { id := 9, baseVer := 7, blobEnc := [6] }]).1 =
      [{ id := 1, userId := 1, blobEnc := [4], ver := 2, deleted := false }] :=
  (upsertBatch_atomic _ _ _).1 (conflictAt 1) (by decide)

/-- Claim C9 (code bug): `main` builds `grpc.NewServer` with TLS and the
two interceptors only — no `grpc.MaxRecvMsgSize` — so the effective
receive cap is grpc-go's 4 MiB default and a 2 MiB request payload,
well above the documented 1 MiB cap, is accepted rather than rejected. -/
theorem serverAccepts_2MiB_payload :
    effectiveMaxRecv mainServerOptions = grpcDefaultMaxRecvBytes ∧
    serverAcceptsPayload mainServerOptions 2097152 = true ∧
    1048576 < 2097152 := by decide

/-- Claim C6 (code bug): on a duplicate username the `INSERT` raises the
unique-constraint violation and `UserRepo.Create` maps it to
`errs.ErrVersionConflict` — a kind that `errors.Is` does not match
against `errs.ErrAlreadyExists` — while any other backend error
propagates unchanged. -/
theorem userCreate_unique_is_versionConflict :
    (userCreate [⟨1, "alice", [1], [2], [3], []⟩]
        ⟨2, "alice", [4], [5], [6], []⟩ none).2 = .error errVersionConflict ∧
    errorsIs errVersionConflict .versionConflict ∧
    ¬ errorsIs errVersionConflict .alreadyExists ∧
    (∀ (st : UserStore) (u : UserRow) (e : GoError),
      (userCreate st u (some e)).2 = .error e) := by
  refine ⟨by decide, by decide, by decide, fun st u e => rfl⟩

/-- Claim C10: `GetByID` and `GetByUsername` turn every lookup failure —
`pgx.ErrNoRows` as well as arbitrary backend errors — into
`errs.ErrNotFound`; the only raw error they surface is
`context.Canceled`. -/
theorem userGet_errorsAreNotFound (st : UserStore) (id : Nat) (username : String)
    (fault : Option QueryFault) :
    (∀ e, userGetByID st id fault = .error e →
      e = errNotFound ∨ (e = .canceled ∧ fault = some .canceled)) ∧
    (fault = some .canceled → userGetByID st id fault = .error .canceled) ∧
    (∀ msg, userGetByID st id (some (.backend msg)) = .error errNotFound) ∧
    (∀ e, userGetByUsername st username fault = .error e →
      e = errNotFound ∨ (e = .canceled ∧ fault = some .canceled)) ∧
    (fault = some .canceled → userGetByUsername st username fault = .error .canceled) ∧
    (∀ msg, userGetByUsername st username (some (.backend msg)) = .error errNotFound) := by
  refine ⟨?_, ?_, ?_, ?_, ?_, ?_⟩
  · intro e he
    match fault with
    | some .canceled => simp [userGetByID] at he; simp [he]
    | some (.backend msg) => simp [userGetByID] at he; simp [he]
    | none =>
      simp only [userGetByID] at he
      cases hf : st.find? fun u => u.id == id with
      | some u => rw [hf] at he; simp at he
      | none => rw [hf] at he; simp at he; simp [he]
  · intro hf; subst hf; rfl
  · intro msg; rfl
  · intro e he
    match fault with
    | some .canceled => simp [userGetByUsername] at he; simp [he]
    | some (.backend msg) => simp [userGetByUsername] at he; simp [he]
    | none =>
      simp only [userGetByUsername] at he
      cases hf : st.find? fun u => u.username == username with
      | some u => rw [hf] at he; simp at he
      | none => rw [hf] at he; simp at he; simp [he]
  · intro hf; subst hf; rfl
  · intro msg; rfl

/-- Witness for C10: a backend failure on an empty table surfaces as
`errs.ErrNotFound` from `GetByID`, and a cancelled context surfaces raw
from `GetByUsername`. -/
theorem userGet_errorsAreNotFound_witness :
    userGetByID [] 7 (some (.backend "io")) = .error errNotFound ∧
    userGetByUsername [] "alice" (some .canceled) = .error .canceled :=
  ⟨(userGet_errorsAreNotFound [] 7 "alice" (some (.backend "io"))).2.2.1 "io",
   (userGet_errorsAreNotFound [] 7 "alice" (some .canceled)).2.2.2.2.1 rfl⟩

/-- Claim C7: `PG.Failure` sets `fail_count` to `1` when the previous
`updated_at` is more than `window` old and to the previous count plus one
otherwise, always stamps `updated_at = now`, and when the resulting count
reaches `maxFails` it sets `blocked_until = now + blockFor` and returns
`(true, blockFor)`, otherwise it returns `(false, 0)` and keeps the
previous `blocked_until`. -/
theorem limiterFailure_spec (cfg : LimiterCfg) (now : Int) (prev : LimRow)
    (anyPrev : Option LimRow) :
    (now - prev.updatedAt > cfg.window →
      (limiterFailure cfg now (some prev)).1.failCount = 1) ∧
    (¬ now - prev.updatedAt > cfg.window →
      (limiterFailure cfg now (some prev)).1.failCount = prev.failCount + 1) ∧
    (limiterFailure cfg now anyPrev).1.updatedAt = now ∧
    ((limiterFailure cfg now anyPrev).1.failCount ≥ cfg.maxFails →
      (limiterFailure cfg now anyPrev).1.blockedUntil = now + cfg.blockFor ∧
      ((limiterFailure cfg now anyPrev).2.1 = true ∧
        (limiterFailure cfg now anyPrev).2.2 = cfg.blockFor)) ∧
    ((limiterFailure cfg now anyPrev).1.failCount < cfg.maxFails →
      ((limiterFailure cfg now anyPrev).2.1 = false ∧
        (limiterFailure cfg now anyPrev).2.2 = 0) ∧
      (limiterFailure cfg now anyPrev).1.blockedUntil =
        (match anyPrev with | none => 0 | some r => r.blockedUntil)) := by
  cases anyPrev <;> (simp only [limiterFailure]; split_ifs) <;>
    refine ⟨fun h => ?_, fun h => ?_, ?_, fun hge => ?_, fun hlt => ?_⟩ <;>
    simp_all <;> omega

/-- Witness for C7: with `window=10`, `maxFails=3`, `blockFor=20`, a third
failure at `now=100` on a row updated at `95` increments the counter to 3
and sets the block. -/
theorem limiterFailure_spec_witness :
    (limiterFailure ⟨10, 3, 20⟩ 100 (some ⟨2, 0, 95⟩)).1.failCount = 2 + 1 ∧
    (limiterFailure ⟨10, 3, 20⟩ 100 (some ⟨2, 0, 95⟩)).1.blockedUntil = 100 + 20 ∧
    (limiterFailure ⟨10, 3, 20⟩ 100 (some ⟨2, 0, 95⟩)).2.1 = true ∧
    (limiterFailure ⟨10, 3, 20⟩ 100 (some ⟨2, 0, 95⟩)).2.2 = 20 :=
  ⟨(limiterFailure_spec ⟨10, 3, 20⟩ 100 ⟨2, 0, 95⟩ (some ⟨2, 0, 95⟩)).2.1 (by decide),
   ((limiterFailure_spec ⟨10, 3, 20⟩ 100 ⟨2, 0, 95⟩ (some ⟨2, 0, 95⟩)).2.2.2.1 (by decide)).1,
   ((limiterFailure_spec ⟨10, 3, 20⟩ 100 ⟨2, 0, 95⟩ (some ⟨2, 0, 95⟩)).2.2.2.1 (by decide)).2⟩

/-- A found row matches the `WHERE id=$1 AND user_id=$2` clause. -/
theorem findItem_props {st : ItemStore} {a b : Nat} {r : ItemRow}
    (h : findItem st a b = some r) : r.id = a ∧ r.userId = b := by
  have hp := List.find?_some h
  simp at hp
  exact hp

/-- Running the `UPDATE` and then re-selecting the key finds the row with
the new blob and version and a cleared tombstone. -/
theorem findItem_updateItem (st : ItemStore) (id uid : Nat) (blob : Bytes) (v : Int) :
    findItem (updateItem st id uid blob v) id uid =
      (findItem st id uid).map fun r => { r with blobEnc := blob, ver := v, deleted := false } := by
  induction st with
  | nil => rfl
  | cons r st ih =>
    simp only [findItem, updateItem, List.map_cons] at ih ⊢
    cases h : (r.id == id && r.userId == uid) with
    | true => simp [List.find?_cons, h]
    | false => simpa [List.find?_cons, h] using ih

/-- Running the `INSERT` after an empty select finds the fresh row. -/
theorem findItem_insertItem (st : ItemStore) (id uid : Nat) (blob : Bytes) (v : Int)
    (h : findItem st id uid = none) :
    findItem (insertItem st id uid blob v) id uid =
      some { id := id, userId := uid, blobEnc := blob, ver := v, deleted := false } := by
  simp only [findItem, insertItem] at h ⊢
  rw [List.find?_append, h]
  simp

/-- Claim C1: one step of the `UpsertBatch` loop, for the intent at index
`i`. If the `(item_id, user)` row exists and `base_ver` equals its current
`ver`, the row is rewritten with `ver = current + 1`, the new blob and
`deleted = false`, and `(item_id, new_ver)` is appended to the results; if
it exists with a different `base_ver` the batch fails with the
version-conflict sentinel wrapped in a message carrying the index `i`; if
no row exists and `base_ver = 0` a row with `ver = 1`, `deleted = false`
is inserted (and `(item_id, 1)` appended); if no row exists and
`base_ver ≠ 0` the batch fails with the same conflict error. -/
theorem upsertBatch_step_spec (userId i : Nat) (st : ItemStore) (acc : List ItemVersion)
    (up : UpsertItem) (rest : List UpsertItem) :
    (∀ r, findItem st up.id userId = some r → up.baseVer = r.ver →
      upsertLoop userId st i acc (up :: rest) =
        upsertLoop userId (updateItem st up.id userId up.blobEnc (r.ver + 1)) (i + 1)
          (acc ++ [{ id := up.id, newVer := r.ver + 1 }]) rest ∧
      findItem (updateItem st up.id userId up.blobEnc (r.ver + 1)) up.id userId =
        some { id := up.id, userId := userId, blobEnc := up.blobEnc,
               ver := r.ver + 1, deleted := false }) ∧
    (∀ r, findItem st up.id userId = some r → up.baseVer ≠ r.ver →
      upsertLoop userId st i acc (up :: rest) = .error (conflictAt i) ∧
      conflictAt i = .wrapped .versionConflict ("item[" ++ toString i ++ "]: version conflict")) ∧
    (findItem st up.id userId = none → up.baseVer = 0 →
      upsertLoop userId st i acc (up :: rest) =
        upsertLoop userId (insertItem st up.id userId up.blobEnc 1) (i + 1)
          (acc ++ [{ id := up.id, newVer := 1 }]) rest ∧
      findItem (insertItem st up.id userId up.blobEnc 1) up.id userId =
        some { id := up.id, userId := userId, blobEnc := up.blobEnc,
               ver := 1, deleted := false }) ∧
    (findItem st up.id userId = none → up.baseVer ≠ 0 →
      upsertLoop userId st i acc (up :: rest) = .error (conflictAt i)) := by
  refine ⟨fun r hfind hbase => ⟨?_, ?_⟩, fun r hfind hbase => ⟨?_, rfl⟩,
    fun hfind hbase => ⟨?_, ?_⟩, fun hfind hbase => ?_⟩
  · simp only [upsertLoop]
    rw [hfind]
    simp [hbase]
  · rw [findItem_updateItem, hfind]
    obtain ⟨h1, h2⟩ := findItem_props hfind
    cases r
    simp_all
  · simp only [upsertLoop]
    rw [hfind]
    simp [hbase]
  · simp only [upsertLoop]
    rw [hfind]
    simp [hbase]
  · exact findItem_insertItem st up.id userId up.blobEnc 1 hfind
  · simp only [upsertLoop]
    rw [hfind]
    simp [hbase]

/-- Witness for C1: on a store holding `(item 1, user 1)` at `ver = 2`, an
intent with `base_ver = 1` at index 0 aborts with the indexed
version-conflict error, and a fresh create with `base_ver = 0` at index 3
inserts `ver = 1`. -/
theorem upsertBatch_step_spec_witness :
    upsertLoop 1 [⟨1, 1, [4], 2, false⟩] 0 [] [⟨1, 1, [5]⟩] = .error (conflictAt 0) ∧
    findItem (insertItem [] 9 1 [6] 1) 9 1 = some ⟨9, 1, [6], 1, false⟩ :=
  ⟨((upsertBatch_step_spec 1 0 [⟨1, 1, [4], 2, false⟩] [] ⟨1, 1, [5]⟩ []).2.1
      ⟨1, 1, [4], 2, false⟩ (by decide) (by decide)).1,
   ((upsertBatch_step_spec 1 3 [] [] ⟨9, 0, [6]⟩ []).2.2.1 (by decide) (by decide)).2⟩

/-- The `WHERE` clause of the conditional update, propositionally. -/
theorem dekRowMatches_iff (id : Nat) (u : UserRow) :
    dekRowMatches id u = true ↔ u.id = id ∧ u.wrappedDEK = [] := by
  simp [dekRowMatches, List.length_eq_zero]

/-- The table after `SetWrappedDEKIfEmpty`: exactly the rows matching
`id = $1 AND octet_length(wrapped_dek) = 0` get the new value. -/
theorem setWrappedDEK_store (st : UserStore) (id : Nat) (w : Bytes) :
    (SetWrappedDEKIfEmpty st id w).1 =
      st.map fun u =>
        if u.id = id ∧ u.wrappedDEK = [] then { u with wrappedDEK := w } else u := by
  have hmap : ∀ u : UserRow,
      (if dekRowMatches id u then { u with wrappedDEK := w } else u) =
        (if u.id = id ∧ u.wrappedDEK = [] then { u with wrappedDEK := w } else u) := by
    intro u
    by_cases h : u.id = id ∧ u.wrappedDEK = []
    · rw [if_pos ((dekRowMatches_iff id u).mpr h), if_pos h]
    · rw [if_neg (fun hb => h ((dekRowMatches_iff id u).mp hb)), if_neg h]
  simp only [SetWrappedDEKIfEmpty]
  split <;> simp only [] <;> exact List.map_congr_left fun u _ => hmap u

/-- When no row has the given id with an empty `wrapped_dek`, zero rows
are affected: the call fails with `errs.ErrVersionConflict` and the table
is untouched. -/
theorem setWrappedDEK_noRow (st : UserStore) (id : Nat) (w : Bytes)
    (h : ∀ u ∈ st, ¬(u.id = id ∧ u.wrappedDEK = [])) :
    (SetWrappedDEKIfEmpty st id w).2 = .error errVersionConflict ∧
    (SetWrappedDEKIfEmpty st id w).1 = st := by
  have hc : (st.countP fun u => dekRowMatches id u) = 0 := by
    rw [List.countP_eq_zero]
    intro u hu hb
    exact h u hu ((dekRowMatches_iff id u).mp hb)
  have hid : ∀ l : UserStore, (∀ u ∈ l, ¬(u.id = id ∧ u.wrappedDEK = [])) →
      (l.map fun u => if dekRowMatches id u then { u with wrappedDEK := w } else u) = l := by
    intro l
    induction l with
    | nil => intro _; rfl
    | cons u l ih =>
      intro hl
      simp only [List.map_cons]
      rw [if_neg fun hb => hl u (by simp) ((dekRowMatches_iff id u).mp hb),
        ih fun v hv => hl v (by simp [hv])]
  constructor <;> simp [SetWrappedDEKIfEmpty, hc, hid st h]

/-- When some row has the given id with an empty `wrapped_dek`, at least
one row is affected and the call succeeds. -/
theorem setWrappedDEK_hit (st : UserStore) (id : Nat) (w : Bytes)
    (h : ∃ u ∈ st, u.id = id ∧ u.wrappedDEK = []) :
    (SetWrappedDEKIfEmpty st id w).2 = .ok () := by
  have hc : 0 < st.countP fun u => dekRowMatches id u := by
    rw [List.countP_pos_iff]
    obtain ⟨u, hu, hm⟩ := h
    exact ⟨u, hu, (dekRowMatches_iff id u).mpr hm⟩
  have hb : ((st.countP fun u => dekRowMatches id u) == 0) = false := by
    rw [beq_eq_false_iff_ne]
    omega
  simp [SetWrappedDEKIfEmpty, hb]

/-- Claim C5: `wrapped_dek` transitions at most once from empty to
non-empty. The conditional `UPDATE` touches only rows whose stored value
has zero length; when zero rows are affected the call fails with the
version-conflict kind and the table is unchanged; and of two sequential
`SetWrappedDEK` service calls on a fresh user (present, empty
`wrapped_dek`, non-empty payload), exactly the first succeeds and the
second leaves the stored value untouched. -/
theorem wrappedDEK_set_once (st : UserStore) (uid : Nat) (w1 w2 : Bytes) :
    ((SetWrappedDEKIfEmpty st uid w1).1 =
      st.map fun u =>
        if u.id = uid ∧ u.wrappedDEK = [] then { u with wrappedDEK := w1 } else u) ∧
    ((∀ u ∈ st, ¬(u.id = uid ∧ u.wrappedDEK = [])) →
      (SetWrappedDEKIfEmpty st uid w1).2 = .error errVersionConflict ∧
      (SetWrappedDEKIfEmpty st uid w1).1 = st) ∧
    (uid ≠ 0 → w1 ≠ [] → w2 ≠ [] → (∃ u ∈ st, u.id = uid ∧ u.wrappedDEK = []) →
      (serviceSetWrappedDEK st uid w1).2 = .ok () ∧
      (serviceSetWrappedDEK (serviceSetWrappedDEK st uid w1).1 uid w2).2 =
        .error errVersionConflict ∧
      (serviceSetWrappedDEK (serviceSetWrappedDEK st uid w1).1 uid w2).1 =
        (serviceSetWrappedDEK st uid w1).1) := by
  refine ⟨setWrappedDEK_store st uid w1, setWrappedDEK_noRow st uid w1, ?_⟩
  intro huid hw1 hw2 hex
  have hval : ¬(uid = 0 ∨ w1 = []) := by
    rintro (h | h)
    · exact huid h
    · exact hw1 h
  have hval2 : ¬(uid = 0 ∨ w2 = []) := by
    rintro (h | h)
    · exact huid h
    · exact hw2 h
  have hsvc1 : serviceSetWrappedDEK st uid w1 = SetWrappedDEKIfEmpty st uid w1 := by
    simp [serviceSetWrappedDEK, hval]
  have hnomatch : ∀ u ∈ (SetWrappedDEKIfEmpty st uid w1).1, ¬(u.id = uid ∧ u.wrappedDEK = []) := by
    rw [setWrappedDEK_store]
    intro u hu
    rw [List.mem_map] at hu
    obtain ⟨v, _, hv⟩ := hu
    subst hv
    by_cases hm : v.id = uid ∧ v.wrappedDEK = []
    · rw [if_pos hm]
      exact fun hc => hw1 hc.2
    · rw [if_neg hm]
      exact hm
  rw [hsvc1]
  refine ⟨setWrappedDEK_hit st uid w1 hex, ?_, ?_⟩
  · simp only [serviceSetWrappedDEK, if_neg hval2]
    exact (setWrappedDEK_noRow _ uid w2 hnomatch).1
  · simp only [serviceSetWrappedDEK, if_neg hval2]
    exact (setWrappedDEK_noRow _ uid w2 hnomatch).2

/-- Witness for C5: a fresh user (id 5, empty `wrapped_dek`): the first
service call stores `[7,7]` and the second fails with the
version-conflict kind, leaving the table as after the first call. -/
theorem wrappedDEK_set_once_witness :
    (serviceSetWrappedDEK [⟨5, "alice", [1], [2], [3], []⟩] 5 [7, 7]).2 = .ok () ∧
    (serviceSetWrappedDEK
        (serviceSetWrappedDEK [⟨5, "alice", [1], [2], [3], []⟩] 5 [7, 7]).1 5 [8]).2 =
      .error errVersionConflict :=
  ⟨((wrappedDEK_set_once [⟨5, "alice", [1], [2], [3], []⟩] 5 [7, 7] [8]).2.2
      (by decide) (by decide) (by decide)
      ⟨⟨5, "alice", [1], [2], [3], []⟩, by decide, by decide⟩).1,
   ((wrappedDEK_set_once [⟨5, "alice", [1], [2], [3], []⟩] 5 [7, 7] [8]).2.2
      (by decide) (by decide) (by decide)
      ⟨⟨5, "alice", [1], [2], [3], []⟩, by decide, by decide⟩).2.1⟩

/-- Claim C8, amended: when the limiter allows the attempt and the
recorded failure does not report a block, `LoginWithIP` returns the same
`errs.ErrUnauthorized` kind whether the user is missing (any lookup
failure) or the user exists and the password fails verification — but the
two paths are not timing-indistinguishable: the short-circuited
`err != nil || !VerifyPassword(...)` computes the Argon2id hash only when
the user exists (zero versus one hash evaluation). -/
theorem loginWithIP_failure_kinds (hash : Bytes → Bytes → Bytes)
    (st : UserStore) (username : String) (password : Bytes)
    (failBlocked : Bool) (failErr : Option GoError)
    (hnb : ¬(failErr = none ∧ failBlocked = true)) :
    (∀ e, userGetByUsername st username none = .error e →
      loginWithIP hash st username password true none none failBlocked failErr =
        { result := .error errUnauthorized, hashEvals := 0 }) ∧
    (∀ u, userGetByUsername st username none = .ok u →
      hash password u.saltAuth ≠ u.pwdHash →
      loginWithIP hash st username password true none none failBlocked failErr =
        { result := .error errUnauthorized, hashEvals := 1 }) := by
  have hnb2 : ¬(failErr = none ∧ failBlocked) := by
    intro hc
    exact hnb ⟨hc.1, hc.2⟩
  constructor
  · intro e he
    simp only [loginWithIP, Bool.not_true, Bool.false_eq_true, if_false, he]
    rw [if_neg hnb2]
  · intro u hu hv
    simp only [loginWithIP, Bool.not_true, Bool.false_eq_true, if_false, hu]
    rw [if_neg hv, if_neg hnb2]

/-- Witness for C8's amended theorem: on a table holding only `alice`,
a login as the missing `bob` and a wrong-password login as `alice` both
yield `errs.ErrUnauthorized` (with 0 and 1 hash evaluations). -/
theorem loginWithIP_failure_kinds_witness :
    loginWithIP (fun p s => p ++ s) [⟨1, "alice", [9], [2], [3], []⟩] "bob" [7]
        true none none false none =
      { result := .error errUnauthorized, hashEvals := 0 } ∧
    loginWithIP (fun p s => p ++ s) [⟨1, "alice", [9], [2], [3], []⟩] "alice" [7]
        true none none false none =
      { result := .error errUnauthorized, hashEvals := 1 } :=
  ⟨(loginWithIP_failure_kinds (fun p s => p ++ s) [⟨1, "alice", [9], [2], [3], []⟩]
        "bob" [7] false none (by simp)).1 errNotFound (by decide),
   (loginWithIP_failure_kinds (fun p s => p ++ s) [⟨1, "alice", [9], [2], [3], []⟩]
        "alice" [7] false none (by simp)).2 ⟨1, "alice", [9], [2], [3], []⟩
     (by decide) (by decide)⟩

/-- Counterexample to claim C8 as stated: the two failure causes are not
indistinguishable in timing. At a concrete table, a missing-user login
performs no Argon2id evaluation while a wrong-password login performs
one, even though both return `errs.ErrUnauthorized`; the dominant-cost
work differs, so the paths are timing-distinguishable. -/
theorem loginWithIP_timing_counterexample :
    (loginWithIP (fun p s => p ++ s) [⟨1, "alice", [9], [2], [3], []⟩] "bob" [7]
        true none none false none).result = .error errUnauthorized ∧
    (loginWithIP (fun p s => p ++ s) [⟨1, "alice", [9], [2], [3], []⟩] "alice" [7]
        true none none false none).result = .error errUnauthorized ∧
    (loginWithIP (fun p s => p ++ s) [⟨1, "alice", [9], [2], [3], []⟩] "bob" [7]
        true none none false none).hashEvals ≠
      (loginWithIP (fun p s => p ++ s) [⟨1, "alice", [9], [2], [3], []⟩] "alice" [7]
        true none none false none).hashEvals := by
  refine ⟨by decide, by decide, by decide⟩

/-- Claim C3: `GetChangesSince` returns exactly the user's rows with
`ver > since_ver` (as `Change` values), in ascending `ver` order; every
deleted change carries no blob, in the repository result and in its
`ToProtoChange` wire form, while every non-deleted change carries the
stored `blob_enc` (which the wire form keeps). -/
theorem getChangesSince_spec (st : ItemStore) (userId : Nat) (sinceVer : Int) :
    (∀ c, c ∈ GetChangesSince st userId sinceVer ↔
      ∃ r ∈ st, r.userId = userId ∧ sinceVer < r.ver ∧ c = changeOfRow r) ∧
    (GetChangesSince st userId sinceVer).Pairwise (fun a b => a.ver ≤ b.ver) ∧
    (∀ c ∈ GetChangesSince st userId sinceVer,
      (c.deleted = true → c.blobEnc = none ∧ (ToProtoChange c).blobEnc = none) ∧
      (c.deleted = false →
        (∃ r ∈ st, r.userId = userId ∧ sinceVer < r.ver ∧ r.deleted = false ∧
          c.blobEnc = some r.blobEnc) ∧
        (ToProtoChange c).blobEnc = c.blobEnc)) := by
  have hmem : ∀ c, c ∈ GetChangesSince st userId sinceVer ↔
      ∃ r ∈ st, r.userId = userId ∧ sinceVer < r.ver ∧ c = changeOfRow r := by
    intro c
    simp only [GetChangesSince, List.mem_map, List.mem_insertionSort, List.mem_filter,
      Bool.and_eq_true, beq_iff_eq, decide_eq_true_eq]
    constructor
    · rintro ⟨r, ⟨hr, hu, hv⟩, hc⟩
      exact ⟨r, hr, hu, hv, hc.symm⟩
    · rintro ⟨r, hr, hu, hv, hc⟩
      exact ⟨r, ⟨hr, hu, hv⟩, hc.symm⟩
  refine ⟨hmem, ?_, ?_⟩
  · have hs : (List.insertionSort verLE
        (st.filter fun r => r.userId == userId && sinceVer < r.ver)).Sorted verLE :=
      List.sorted_insertionSort verLE _
    unfold GetChangesSince
    rw [List.pairwise_map]
    exact hs.imp fun h => h
  · intro c hc
    obtain ⟨r, hr, hu, hv, hceq⟩ := (hmem c).mp hc
    subst hceq
    constructor
    · intro hdel
      simp only [changeOfRow] at hdel ⊢
      rw [if_pos hdel]
      simp [ToProtoChange, hdel]
    · intro hdel
      simp only [changeOfRow] at hdel ⊢
      refine ⟨⟨r, hr, hu, hv, hdel, ?_⟩, ?_⟩
      · rw [if_neg (by simp [hdel])]
      · simp [ToProtoChange, hdel]

/-- Witness for C3: on a two-row store (one live row at `ver = 1`, one
tombstone at `ver = 3`), the tombstoned change is in the result and the
membership characterization applies to it. -/
theorem getChangesSince_spec_witness :
    changeOfRow ⟨2, 1, [9], 3, true⟩ ∈
      GetChangesSince [⟨2, 1, [9], 3, true⟩, ⟨4, 1, [8], 1, false⟩] 1 0 :=
  ((getChangesSince_spec [⟨2, 1, [9], 3, true⟩, ⟨4, 1, [8], 1, false⟩] 1 0).1
      (changeOfRow ⟨2, 1, [9], 3, true⟩)).mpr
    ⟨⟨2, 1, [9], 3, true⟩, by decide, rfl, by decide, rfl⟩

/-- Uniqueness of the `2 ^ a * odd` factorization, the key to the
injectivity of `bytesEnc`. -/
theorem pow2_odd_inj : ∀ a b x y : Nat,
    2 ^ a * (2 * x + 1) = 2 ^ b * (2 * y + 1) → a = b ∧ x = y := by
  intro a
  induction a with
  | zero =>
    intro b x y h
    cases b with
    | zero =>
      simp only [pow_zero, one_mul] at h
      omega
    | succ b =>
      rw [pow_zero, one_mul, pow_succ, mul_right_comm] at h
      omega
  | succ a ih =>
    intro b x y h
    cases b with
    | zero =>
      rw [pow_zero, one_mul, pow_succ, mul_right_comm] at h
      omega
    | succ b =>
      have h2 : 2 ^ a * (2 * x + 1) = 2 ^ b * (2 * y + 1) := by
        rw [pow_succ, pow_succ, mul_right_comm (2 ^ a), mul_right_comm (2 ^ b)] at h
        omega
      obtain ⟨h1, hxy⟩ := ih b x y h2
      exact ⟨by omega, hxy⟩

/-- `bytesEnc` is injective. -/
theorem bytesEnc_inj : ∀ l1 l2 : List Nat, bytesEnc l1 = bytesEnc l2 → l1 = l2 := by
  intro l1
  induction l1 with
  | nil =>
    intro l2 h
    cases l2 with
    | nil => rfl
    | cons b m =>
      exfalso
      simp only [bytesEnc] at h
      have hp : 0 < 2 ^ b * (2 * bytesEnc m + 1) :=
        Nat.mul_pos (pow_pos (by norm_num) b) (by omega)
      omega
  | cons a l ih =>
    intro l2 h
    cases l2 with
    | nil =>
      exfalso
      simp only [bytesEnc] at h
      have hp : 0 < 2 ^ a * (2 * bytesEnc l + 1) :=
        Nat.mul_pos (pow_pos (by norm_num) a) (by omega)
      omega
    | cons b m =>
      simp only [bytesEnc] at h
      obtain ⟨hab, hlm⟩ := pow2_odd_inj a b (bytesEnc l) (bytesEnc m) h
      rw [hab, ih m hlm]

/-- The ideal tag is 16 cells long (`aead.Overhead()`). -/
theorem idealTag_length (key nonce aad body : Bytes) : (idealTag key nonce aad body).length = 16 := by
  simp [idealTag]

/-- The ideal tag authenticates all four of its inputs. -/
theorem idealTag_inj {k1 n1 a1 b1 k2 n2 a2 b2 : Bytes}
    (h : idealTag k1 n1 a1 b1 = idealTag k2 n2 a2 b2) :
    k1 = k2 ∧ n1 = n2 ∧ a1 = a2 ∧ b1 = b2 := by
  have h0 : bytesEnc k1 :: bytesEnc n1 :: bytesEnc a1 :: bytesEnc b1 :: List.replicate 12 0 =
      bytesEnc k2 :: bytesEnc n2 :: bytesEnc a2 :: bytesEnc b2 :: List.replicate 12 0 := h
  injection h0 with h1 h0
  injection h0 with h2 h0
  injection h0 with h3 h0
  injection h0 with h4 _
  exact ⟨bytesEnc_inj _ _ h1, bytesEnc_inj _ _ h2, bytesEnc_inj _ _ h3, bytesEnc_inj _ _ h4⟩

/-- Seal output length: body plus the 16-cell overhead. -/
theorem aeadSeal_length (key nonce pt aad : Bytes) :
    (aeadSeal key nonce pt aad).length = pt.length + 16 := by
  rw [aeadSeal, List.length_append, idealTag_length]

/-- Opening a sealed box with the same key, nonce and AAD recovers the
plaintext. -/
theorem aeadOpen_seal (key nonce pt aad : Bytes) :
    aeadOpen key nonce (aeadSeal key nonce pt aad) aad = some pt := by
  have hlen := aeadSeal_length key nonce pt aad
  have hsub : (aeadSeal key nonce pt aad).length - 16 = pt.length := by omega
  unfold aeadOpen
  rw [if_pos (by omega), hsub]
  rw [aeadSeal, List.take_left' rfl, List.drop_left' rfl]
  rw [if_pos rfl]

/-- Opening a sealed box with a different key or different AAD fails. -/
theorem aeadOpen_seal_mismatch (key nonce pt aad key2 aad2 : Bytes)
    (h : key2 ≠ key ∨ aad2 ≠ aad) :
    aeadOpen key2 nonce (aeadSeal key nonce pt aad) aad2 = none := by
  have hlen := aeadSeal_length key nonce pt aad
  have hsub : (aeadSeal key nonce pt aad).length - 16 = pt.length := by omega
  unfold aeadOpen
  rw [if_pos (by omega), hsub]
  rw [aeadSeal, List.take_left' rfl, List.drop_left' rfl]
  rw [if_neg]
  intro heq
  obtain ⟨hk, _, ha, _⟩ := idealTag_inj heq
  cases h with
  | inl hk2 => exact hk2 hk.symm
  | inr ha2 => exact ha2 ha.symm

/-- The eight big-endian bytes determine a 64-bit value. -/
theorem beBytes8_inj {m n : Nat} (hm : m < 2 ^ 64) (hn : n < 2 ^ 64)
    (h : beBytes8 m = beBytes8 n) : m = n := by
  simp only [beBytes8, List.cons.injEq, and_true] at h
  norm_num at h hm hn
  omega

/-- `uint64(ver)` is below `2 ^ 64`. -/
theorem toUint64_lt (ver : Int) : toUint64 ver < 2 ^ 64 := by
  unfold toUint64
  have h1 : 0 ≤ ver % (2 ^ 64 : Int) := Int.emod_nonneg ver (by norm_num)
  have h2 : ver % (2 ^ 64 : Int) < 2 ^ 64 := Int.emod_lt_of_pos ver (by norm_num)
  have e : (2 : Int) ^ 64 = 18446744073709551616 := by norm_num
  rw [e] at h1 h2
  have e2 : (2 : Nat) ^ 64 = 18446744073709551616 := by norm_num
  rw [e2]
  omega

/-- `uint64` is injective on the `int64` range. -/
theorem toUint64_inj {v w : Int}
    (hv1 : -(2 ^ 63) ≤ v) (hv2 : v < 2 ^ 63)
    (hw1 : -(2 ^ 63) ≤ w) (hw2 : w < 2 ^ 63)
    (h : toUint64 v = toUint64 w) : v = w := by
  unfold toUint64 at h
  have e : (2 : Int) ^ 64 = 18446744073709551616 := by norm_num
  have e3 : (2 : Int) ^ 63 = 9223372036854775808 := by norm_num
  have h1 : 0 ≤ v % (2 ^ 64 : Int) := Int.emod_nonneg v (by norm_num)
  have h2 : 0 ≤ w % (2 ^ 64 : Int) := Int.emod_nonneg w (by norm_num)
  rw [e] at h h1 h2
  rw [e3] at hv1 hv2 hw1 hw2
  omega

/-- The AAD `userID || itemID || ver` is injective for 16-byte ids and
`int64` versions. -/
theorem aadOf_inj {u1 i1 u2 i2 : Bytes} {v1 v2 : Int}
    (hu1 : u1.length = 16) (hu2 : u2.length = 16)
    (hi1 : i1.length = 16) (hi2 : i2.length = 16)
    (hv1a : -(2 ^ 63) ≤ v1) (hv1b : v1 < 2 ^ 63)
    (hv2a : -(2 ^ 63) ≤ v2) (hv2b : v2 < 2 ^ 63)
    (h : aadOf u1 i1 v1 = aadOf u2 i2 v2) : u1 = u2 ∧ i1 = i2 ∧ v1 = v2 := by
  unfold aadOf at h
  obtain ⟨h12, h3⟩ := List.append_inj h
    (by rw [List.length_append, List.length_append, hu1, hu2, hi1, hi2])
  obtain ⟨hu, hi⟩ := List.append_inj h12 (by rw [hu1, hu2])
  exact ⟨hu, hi, toUint64_inj hv1a hv1b hv2a hv2b
    (beBytes8_inj (toUint64_lt v1) (toUint64_lt v2) h3)⟩

/-- `DecryptBlob` on an `EncryptBlob` output reduces to opening the inner
sealed box: the 24-byte nonce is split back off and the AAD rebuilt. -/
theorem decryptBlob_encryptBlob (key2 uid2 iid2 key uid iid : Bytes) (ver2 ver : Int)
    (pt nonce : Bytes) (hn : nonce.length = 24) :
    DecryptBlob key2 uid2 iid2 ver2 (EncryptBlob key uid iid ver pt nonce) =
      aeadOpen key2 nonce (aeadSeal key nonce pt (aadOf uid iid ver)) (aadOf uid2 iid2 ver2) := by
  have hge : 24 ≤ (nonce ++ aeadSeal key nonce pt (aadOf uid iid ver)).length := by
    rw [List.length_append, hn]
    omega
  unfold DecryptBlob EncryptBlob
  rw [if_neg (Nat.not_lt.mpr hge), List.take_left' hn, List.drop_left' hn]

/-- Claim C4: the round trip
`DecryptBlob(key, u, i, v, EncryptBlob(key, u, i, v, pt))` returns the
plaintext byte for byte; the associated data is
`userID || itemID || big-endian 8-byte uint64(ver)`; the output layout is
the 24-byte nonce followed by the sealed box of `|pt| + 16` bytes; and —
for 16-byte ids and `int64` versions — decrypting under a different key,
user id, item id or version fails. The XChaCha20-Poly1305 primitive is
the ideal AEAD of `aeadSeal` / `aeadOpen`. -/
theorem encryptDecryptBlob_spec (key uid iid : Bytes) (ver : Int) (pt nonce : Bytes)
    (hn : nonce.length = 24) :
    DecryptBlob key uid iid ver (EncryptBlob key uid iid ver pt nonce) = some pt ∧
    EncryptBlob key uid iid ver pt nonce =
      nonce ++ aeadSeal key nonce pt (aadOf uid iid ver) ∧
    (aeadSeal key nonce pt (aadOf uid iid ver)).length = pt.length + 16 ∧
    aadOf uid iid ver = uid ++ iid ++ beBytes8 (toUint64 ver) ∧
    (∀ (key2 uid2 iid2 : Bytes) (ver2 : Int),
      uid.length = 16 → uid2.length = 16 → iid.length = 16 → iid2.length = 16 →
      -(2 ^ 63) ≤ ver → ver < 2 ^ 63 → -(2 ^ 63) ≤ ver2 → ver2 < 2 ^ 63 →
      (key2 ≠ key ∨ uid2 ≠ uid ∨ iid2 ≠ iid ∨ ver2 ≠ ver) →
      DecryptBlob key2 uid2 iid2 ver2 (EncryptBlob key uid iid ver pt nonce) = none) := by
  refine ⟨?_, rfl, aeadSeal_length key nonce pt _, rfl, ?_⟩
  · rw [decryptBlob_encryptBlob key uid iid key uid iid ver ver pt nonce hn]
    exact aeadOpen_seal key nonce pt _
  · intro key2 uid2 iid2 ver2 h1 h2 h3 h4 h5 h6 h7 h8 hd
    rw [decryptBlob_encryptBlob key2 uid2 iid2 key uid iid ver2 ver pt nonce hn]
    apply aeadOpen_seal_mismatch
    rcases hd with hk | hu | hi | hv
    · exact Or.inl hk
    · refine Or.inr fun heq => ?_
      obtain ⟨hu', _, _⟩ := aadOf_inj h2 h1 h4 h3 h7 h8 h5 h6 heq
      exact hu hu'
    · refine Or.inr fun heq => ?_
      obtain ⟨_, hi', _⟩ := aadOf_inj h2 h1 h4 h3 h7 h8 h5 h6 heq
      exact hi hi'
    · refine Or.inr fun heq => ?_
      obtain ⟨_, _, hv'⟩ := aadOf_inj h2 h1 h4 h3 h7 h8 h5 h6 heq
      exact hv hv'

/-- Witness for C4: a concrete round trip with 16-byte ids and a 24-byte
nonce recovers the plaintext, and decrypting with a different user id
fails. -/
theorem encryptDecryptBlob_spec_witness :
    DecryptBlob [1] (List.replicate 16 3) (List.replicate 16 4) 5
        (EncryptBlob [1] (List.replicate 16 3) (List.replicate 16 4) 5 [7, 8]
          (List.replicate 24 2)) = some [7, 8] ∧
    DecryptBlob [1] (List.replicate 16 9) (List.replicate 16 4) 5
        (EncryptBlob [1] (List.replicate 16 3) (List.replicate 16 4) 5 [7, 8]
          (List.replicate 24 2)) = none :=
  ⟨(encryptDecryptBlob_spec [1] (List.replicate 16 3) (List.replicate 16 4) 5 [7, 8]
      (List.replicate 24 2) (by decide)).1,
   (encryptDecryptBlob_spec [1] (List.replicate 16 3) (List.replicate 16 4) 5 [7, 8]
      (List.replicate 24 2) (by decide)).2.2.2.2
     [1] (List.replicate 16 9) (List.replicate 16 4) 5
     (by decide) (by decide) (by decide) (by decide)
     (by decide) (by decide) (by decide) (by decide)
     (Or.inr (Or.inl (by decide)))⟩
